import Mathlib

/-!
Verification of the keystream generator and the three CLI modes of
`src/terrible.cc` against the natural-language specification.

The C++ source is shallowly embedded: bytes (`std::uint8_t`) are natural
numbers, with every arithmetic operation that the C++ performs modulo 256
written out explicitly; `std::vector<byte>` becomes `List Nat`; C++
exceptions become `Except`-valued functions; the pull-based stream loops
(`std::transform`, `std::generate_n`) become structural recursions over the
finite input lists.  Library calls made by the source (`std::stoul`,
`std::transform` over `std::istream_iterator`) are modelled with the
semantics the C++ standard gives them, which is part of embedding the
source faithfully.
-/

set_option maxRecDepth 8000

namespace Terrible

/-- Bytes are modelled as natural numbers; actual byte values are < 256. -/
abbrev Byte := Nat

/-- `keystream_generator::keysize = 256` (terrible.cc line 38). -/
def keysize : Nat := 256

/-- The error kinds of the spec's §7 that the embedded fragment can raise.
`invalidKeySize` is the `std::invalid_argument` thrown by the generator
constructor; `invalidArgument` and `outOfRange` are the exceptions
`std::stoul` can throw in the keystream mode. -/
inductive CryptError where
  | invalidKeySize
  | invalidArgument
  | outOfRange
  deriving DecidableEq

/-- State of `class keystream_generator` (terrible.cc lines 36-66): the
working key `m_key`, the step counter `m_i` (a `std::size_t`, initially 0)
and the accumulator `m_q` (a `byte`, initially 0).  `m_i` is modelled as an
unbounded natural: the C++ value is `m_i mod 2^64`, and since `256 ∣ 2^64`
every observable use (`m_i % 256`) agrees with the model. -/
structure keystream_generator where
  m_key : List Byte
  m_i : Nat
  m_q : Byte
  deriving DecidableEq

/-- The constructor `keystream_generator(bytes key)` (lines 40-44): stores
the key and throws `std::invalid_argument` ("invalid keysize") unless the
key is exactly 256 bytes.  No other member function throws. -/
def mkGenerator (key : List Byte) : Except CryptError keystream_generator :=
  if key.length = keysize then .ok ⟨key, 0, 0⟩ else .error .invalidKeySize

/-- `std::swap(l[i], l[j])` on a list, for in-bounds `i`, `j`. -/
def listSwap (l : List Byte) (i j : Nat) : List Byte :=
  (l.set i (l.getD j 0)).set j (l.getD i 0)

/-- Local `h` of `operator()` (line 50): `(++m_i) % keysize`. -/
def callH (s : keystream_generator) : Nat := (s.m_i + 1) % keysize

/-- The updated accumulator `m_q` of `operator()` (line 53):
`(m_q + m_key[h]) % keysize`. -/
def callQ (s : keystream_generator) : Byte :=
  (s.m_q + s.m_key.getD (callH s) 0) % keysize

/-- The working key after `std::swap(m_key[h], m_key[m_q])` (line 54). -/
def callKey (s : keystream_generator) : List Byte :=
  listSwap s.m_key (callH s) (callQ s)

/-- Local `w` of `operator()` (line 55): `(m_key[h] + m_key[m_q]) % keysize`
computed on the post-swap working key. -/
def callW (s : keystream_generator) : Nat :=
  ((callKey s).getD (callH s) 0 + (callKey s).getD (callQ s) 0) % keysize

/-- One call of `keystream_generator::operator()` (lines 46-57): the
returned byte `m_key[w]` together with the successor state. -/
def generatorCall (s : keystream_generator) : Byte × keystream_generator :=
  ((callKey s).getD (callW s) 0, ⟨callKey s, s.m_i + 1, callQ s⟩)

/-- The bytes emitted by `n` successive `operator()` calls, i.e. what
`std::generate_n(out, n, keystream_generator{key})` writes (line 145). -/
def keystreamN : keystream_generator → Nat → List Byte
  | _, 0 => []
  | s, n + 1 => (generatorCall s).1 :: keystreamN (generatorCall s).2 n

/-- The generator state after `n` calls of `operator()`. -/
def stepN : keystream_generator → Nat → keystream_generator
  | s, 0 => s
  | s, n + 1 => stepN (generatorCall s).2 n

/-- State of `class keystream_iterator` (lines 68-99): the wrapped
generator `m_gen` and the cached current byte `m_current`. -/
structure keystream_iterator where
  m_gen : keystream_generator
  m_current : Byte
  deriving DecidableEq

/-- The iterator constructor (lines 70-72) applied to an already
constructed generator: `++(*this)` pre-generates the first byte. -/
def mkIterator (g : keystream_generator) : keystream_iterator :=
  ⟨(generatorCall g).2, (generatorCall g).1⟩

/-- `operator++` of the iterator (lines 76-79): `m_current = m_gen()`. -/
def iterNext (it : keystream_iterator) : keystream_iterator :=
  ⟨(generatorCall it.m_gen).2, (generatorCall it.m_gen).1⟩

/-- The `crypt` mode's loop (line 139),
`std::transform(in_it, {}, keystream_iterator{key}, out, std::bit_xor<byte>{})`:
for each input byte emit `input XOR *it`, then advance both iterators;
the loop stops when the input stream ends (the keystream never ends). -/
def cryptLoop : List Byte → keystream_iterator → List Byte
  | [], _ => []
  | b :: bs, it => (b ^^^ it.m_current) :: cryptLoop bs (iterNext it)

/-- The `crypt` mode (lines 133-139) on an already-read key file and input
stream: construct `keystream_iterator{key}` (whose generator constructor
validates the key size) and stream the XOR transform. -/
def cryptMode (key input : List Byte) : Except CryptError (List Byte) :=
  match mkGenerator key with
  | .error e => .error e
  | .ok g => .ok (cryptLoop input (mkIterator g))

/-- C `isspace` in the default locale, as consumed by `strtoul` /
`std::stoul`: space, \t, \n, vertical tab, form feed, \r. -/
def cIsSpace (c : Char) : Bool :=
  c = ' ' || c = '\t' || c = '\n' || c = '\x0b' || c = '\x0c' || c = '\r'

/-- `ULONG_MAX` on the 64-bit target: `2^64 - 1`. -/
def ulongMax : Nat := 2 ^ 64 - 1

/-- The numeric value of a list of decimal digit characters. -/
def digitsVal (ds : List Char) : Nat :=
  ds.foldl (fun a c => a * 10 + (c.toNat - 48)) 0

/-- `std::stoul(arg)` as called on `argv[3]` (line 144), with the C++
standard's `strtoul` base-10 semantics: skip leading whitespace, accept one
optional sign, then read decimal digits.  If there are no digits the call
throws `std::invalid_argument`; if the digit value exceeds `ULONG_MAX` it
throws `std::out_of_range`; a minus sign negates the value in unsigned
arithmetic (modulo `2^64`), so "-1" parses to `2^64 - 1` without error.
Trailing non-digit characters are ignored. -/
def stoul (arg : List Char) : Except CryptError Nat :=
  let afterSpace := arg.dropWhile cIsSpace
  let signed : Bool × List Char :=
    match afterSpace with
    | '-' :: r => (true, r)
    | '+' :: r => (false, r)
    | _ => (false, afterSpace)
  let ds := signed.2.takeWhile Char.isDigit
  if ds.isEmpty then .error .invalidArgument
  else if ulongMax < digitsVal ds then .error .outOfRange
  else .ok (if signed.1 then (2 ^ 64 - digitsVal ds) % 2 ^ 64 else digitsVal ds)

/-- The `keystream` mode (lines 140-145) on an already-read key file and
the raw length argument: `std::stoul(argv[3])` runs first (line 144), then
the generator is constructed (validating the key size) and
`std::generate_n` emits exactly `len` bytes. -/
def keystreamMode (key : List Byte) (lenArg : List Char) :
    Except CryptError (List Byte) :=
  match stoul lenArg with
  | .error e => .error e
  | .ok n =>
    match mkGenerator key with
    | .error e => .error e
    | .ok g => .ok (keystreamN g n)

/-- The `xor` mode's loop (line 159),
`std::transform(byte_it{file_1}, {}, byte_it{file_2}, out, std::bit_xor<byte>{})`:
the loop runs until the FIRST stream is exhausted.  When the first stream
is longer than the second, the loop dereferences `file_2`'s
`std::istream_iterator` after it has reached end-of-stream, which the C++
standard leaves undefined; that case is modelled as `none`. -/
def transformXor : List Byte → List Byte → Option (List Byte)
  | [], _ => some []
  | _ :: _, [] => none
  | a :: as, b :: bs =>
    match transformXor as bs with
    | none => none
    | some rest => some ((a ^^^ b) :: rest)

/-- The `xor` mode (lines 146-159) on the byte contents of the two opened
files. -/
def xorMode (fileA fileB : List Byte) : Option (List Byte) :=
  transformXor fileA fileB

/-- Spec §3 generator state, following the spec's words: working key, a
"step counter: integer counter mod 256" (stored reduced), and the
accumulator byte. -/
structure SpecGenState where
  working_key : List Byte
  step_counter : Nat
  accumulator : Byte
  deriving DecidableEq

/-- Spec §4.1 step 1, from the spec's words: "Increment the step counter
(mod 256) → call this index h". -/
def specH (s : SpecGenState) : Nat := (s.step_counter + 1) % 256

/-- Spec §4.1 step 2: "accumulator = (accumulator + working_key[h]) mod
256.  Call the new accumulator value q". -/
def specQ (s : SpecGenState) : Byte :=
  (s.accumulator + s.working_key.getD (specH s) 0) % 256

/-- Spec §4.1 step 3: "Swap working_key[h] and working_key[q] in place". -/
def specKey (s : SpecGenState) : List Byte :=
  listSwap s.working_key (specH s) (specQ s)

/-- Spec §4.1 step 4: "w = (working_key[h] + working_key[q]) mod 256
(post-swap values)". -/
def specW (s : SpecGenState) : Nat :=
  ((specKey s).getD (specH s) 0 + (specKey s).getD (specQ s) 0) % 256

/-- Spec §4.1 five-step algorithm: steps 1-4 update the state and step 5
outputs `working_key[w]`.  This definition follows the specification text;
the code's `generatorCall` is proved to match it. -/
def specStep (s : SpecGenState) : Byte × SpecGenState :=
  ((specKey s).getD (specW s) 0, ⟨specKey s, specH s, specQ s⟩)

/-- The spec-side initial state: fresh working copy of the key, counter and
accumulator zero (the first call then uses h = 1). -/
def specInit (key : List Byte) : SpecGenState := ⟨key, 0, 0⟩

/-- `n` bytes of the spec-side five-step algorithm. -/
def specStream : SpecGenState → Nat → List Byte
  | _, 0 => []
  | s, n + 1 => (specStep s).1 :: specStream (specStep s).2 n

/-- The spec-side state after `n` steps. -/
def specStepN : SpecGenState → Nat → SpecGenState
  | s, 0 => s
  | s, n + 1 => specStepN (specStep s).2 n

/-- Correspondence between a code-side generator state and a spec-side
state: same working key, same accumulator, and the spec's reduced step
counter is the code's `std::size_t` counter mod 256. -/
def specRel (g : keystream_generator) (t : SpecGenState) : Prop :=
  t.working_key = g.m_key ∧ t.step_counter = g.m_i % keysize ∧
    t.accumulator = g.m_q

/-- The claim C3's phrase "parseable as a non-negative integer", read from
the spec's words: a non-empty string of decimal digits. -/
def isNonNegIntegerLiteral (s : List Char) : Bool :=
  !s.isEmpty && s.all Char.isDigit

lemma mkGenerator_ok {key : List Byte} {g : keystream_generator}
    (h : mkGenerator key = .ok g) : key.length = keysize ∧ g = ⟨key, 0, 0⟩ := by
  unfold mkGenerator at h
  split at h
  · next hl => injection h with h2; exact ⟨hl, h2.symm⟩
  · exact Except.noConfusion h

lemma mkGenerator_of_length {key : List Byte} (h : key.length = keysize) :
    mkGenerator key = .ok ⟨key, 0, 0⟩ := by
  unfold mkGenerator
  rw [if_pos h]

lemma callH_lt (s : keystream_generator) : callH s < keysize :=
  Nat.mod_lt _ (by decide)

lemma callQ_lt (s : keystream_generator) : callQ s < keysize :=
  Nat.mod_lt _ (by decide)

lemma callW_lt (s : keystream_generator) : callW s < keysize :=
  Nat.mod_lt _ (by decide)

lemma callKey_length (s : keystream_generator) :
    (callKey s).length = s.m_key.length := by
  simp [callKey, listSwap]

/-- Replacing the element at an in-bounds position `s` of `xs` by `x` and
putting the old element in front is a permutation of putting `x` in front. -/
lemma getD_cons_set_perm (xs : List Byte) :
    ∀ (s : Nat) (x : Byte), s < xs.length →
      List.Perm (xs.getD s 0 :: xs.set s x) (x :: xs) := by
  induction xs with
  | nil => intro s x h; exact absurd h (by simp)
  | cons y ys ih =>
    intro s x h
    cases s with
    | zero => exact List.Perm.swap x y ys
    | succ s =>
      have hs : s < ys.length := by simpa using h
      show List.Perm (ys.getD s 0 :: y :: ys.set s x) (x :: y :: ys)
      have t1 : List.Perm (ys.getD s 0 :: y :: ys.set s x)
          (y :: ys.getD s 0 :: ys.set s x) :=
        List.Perm.swap y (ys.getD s 0) (ys.set s x)
      have t2 : List.Perm (y :: ys.getD s 0 :: ys.set s x) (y :: x :: ys) :=
        List.Perm.cons y (ih s x hs)
      exact t1.trans (t2.trans (List.Perm.swap x y ys))

/-- Swapping two in-bounds positions of a list is a permutation. -/
lemma set_set_perm (l : List Byte) :
    ∀ i j : Nat, i < l.length → j < l.length →
      List.Perm ((l.set i (l.getD j 0)).set j (l.getD i 0)) l := by
  induction l with
  | nil => intro i j hi _; exact absurd hi (by simp)
  | cons x xs ih =>
    intro i j hi hj
    cases i with
    | zero =>
      cases j with
      | zero => exact List.Perm.refl _
      | succ j =>
        have hjs : j < xs.length := by simpa using hj
        show List.Perm (xs.getD j 0 :: xs.set j x) (x :: xs)
        exact getD_cons_set_perm xs j x hjs
    | succ i =>
      have his : i < xs.length := by simpa using hi
      cases j with
      | zero =>
        show List.Perm (xs.getD i 0 :: xs.set i x) (x :: xs)
        exact getD_cons_set_perm xs i x his
      | succ j =>
        have hjs : j < xs.length := by simpa using hj
        show List.Perm
          (x :: (xs.set i (xs.getD j 0)).set j (xs.getD i 0)) (x :: xs)
        exact List.Perm.cons x (ih i j his hjs)

/-- One generator call only swaps two in-bounds entries of the working
key, so the new working key is a permutation of the old one. -/
lemma callKey_perm (s : keystream_generator) (h : s.m_key.length = keysize) :
    List.Perm (callKey s) s.m_key :=
  set_set_perm s.m_key _ _ (by rw [h]; exact callH_lt s)
    (by rw [h]; exact callQ_lt s)

lemma stepN_key_perm (n : Nat) :
    ∀ s : keystream_generator, s.m_key.length = keysize →
      List.Perm (stepN s n).m_key s.m_key := by
  induction n with
  | zero => intro s _; exact List.Perm.refl _
  | succ n ih =>
    intro s h
    have h2 : (generatorCall s).2.m_key.length = keysize := by
      show (callKey s).length = keysize
      rw [callKey_length, h]
    exact (ih (generatorCall s).2 h2).trans (callKey_perm s h)

lemma getD_mem_of_lt (l : List Byte) (i : Nat) (h : i < l.length) :
    l.getD i 0 ∈ l := by
  rw [List.getD_eq_getElem l 0 h]
  exact List.getElem_mem h

/-- Every byte of the keystream is a member of the working key it was
read from, hence of the seed key. -/
lemma keystreamN_mem (n : Nat) :
    ∀ s : keystream_generator, s.m_key.length = keysize →
      ∀ b ∈ keystreamN s n, b ∈ s.m_key := by
  induction n with
  | zero => intro s _ b hb; exact absurd hb (by simp [keystreamN])
  | succ n ih =>
    intro s hs b hb
    have hkl : (callKey s).length = keysize := by rw [callKey_length, hs]
    rcases List.mem_cons.mp hb with hb | hb
    · subst hb
      have hm : (generatorCall s).1 ∈ callKey s :=
        getD_mem_of_lt _ _ (by rw [hkl]; exact callW_lt s)
      exact (callKey_perm s hs).mem_iff.mp hm
    · have hm : b ∈ callKey s := ih (generatorCall s).2 hkl b hb
      exact (callKey_perm s hs).mem_iff.mp hm

lemma keystreamN_length (n : Nat) :
    ∀ s : keystream_generator, (keystreamN s n).length = n := by
  induction n with
  | zero => intro s; rfl
  | succ n ih =>
    intro s
    show (keystreamN s (n + 1)).length = n + 1
    simp [keystreamN, ih]

/-- Advancing the crypt iterator is the same as re-wrapping its inner
generator state: both run the generator once and cache the byte. -/
lemma iterNext_eq (it : keystream_iterator) :
    iterNext it = mkIterator it.m_gen := rfl

/-- The crypt loop consumes exactly the keystream bytes of the wrapped
generator, in order: its output is the byte-wise XOR of the input with the
first `|input|` generated bytes. -/
lemma cryptLoop_eq_zipWith (data : List Byte) :
    ∀ s : keystream_generator,
      cryptLoop data (mkIterator s) =
        List.zipWith (· ^^^ ·) data (keystreamN s data.length) := by
  induction data with
  | nil => intro s; rfl
  | cons b bs ih =>
    intro s
    show (b ^^^ (generatorCall s).1) :: cryptLoop bs (iterNext (mkIterator s)) =
      (b ^^^ (generatorCall s).1) ::
        List.zipWith (· ^^^ ·) bs (keystreamN (generatorCall s).2 bs.length)
    rw [iterNext_eq]
    show (b ^^^ (generatorCall s).1) :: cryptLoop bs (mkIterator (generatorCall s).2) = _
    rw [ih (generatorCall s).2]

lemma zipWith_xor_cancel (data : List Byte) :
    ∀ ks : List Byte, data.length ≤ ks.length →
      List.zipWith (· ^^^ ·) (List.zipWith (· ^^^ ·) data ks) ks = data := by
  induction data with
  | nil => intro ks _; rfl
  | cons d ds ih =>
    intro ks hk
    cases ks with
    | nil => exact absurd hk (by simp)
    | cons k ks2 =>
      show (d ^^^ k ^^^ k) ::
          List.zipWith (· ^^^ ·) (List.zipWith (· ^^^ ·) ds ks2) ks2 = d :: ds
      rw [Nat.xor_assoc, Nat.xor_self, Nat.xor_zero, ih ks2 (by simpa using hk)]

/-- Unfolding a successful run of the crypt mode. -/
lemma cryptMode_ok {key data out : List Byte}
    (h : cryptMode key data = .ok out) :
    key.length = keysize ∧
      out = List.zipWith (· ^^^ ·) data (keystreamN ⟨key, 0, 0⟩ data.length) := by
  unfold cryptMode at h
  split at h
  · exact Except.noConfusion h
  · next g hm =>
    injection h with h2
    obtain ⟨hl, hg⟩ := mkGenerator_ok hm
    subst hg
    exact ⟨hl, by rw [← h2, cryptLoop_eq_zipWith]⟩

/-- Unfolding a successful run of the keystream mode: the emitted list is
the keystream of the freshly constructed generator, of length equal to the
parsed count. -/
lemma keystreamMode_ok {key : List Byte} {arg : List Char} {ks : List Byte}
    (h : keystreamMode key arg = .ok ks) :
    key.length = keysize ∧ ks = keystreamN ⟨key, 0, 0⟩ ks.length := by
  unfold keystreamMode at h
  split at h
  · exact Except.noConfusion h
  · split at h
    · exact Except.noConfusion h
    · next g hm =>
      injection h with h2
      obtain ⟨hl, hg⟩ := mkGenerator_ok hm
      subst hg
      exact ⟨hl, by rw [← h2, keystreamN_length]⟩

lemma transformXor_eq (a : List Byte) :
    ∀ b : List Byte, a.length ≤ b.length →
      transformXor a b = some (List.zipWith (· ^^^ ·) a b) := by
  induction a with
  | nil => intro b _; rfl
  | cons x xs ih =>
    intro b hb
    cases b with
    | nil => exact absurd hb (by simp)
    | cons y ys =>
      show (match transformXor xs ys with
        | none => none
        | some rest => some ((x ^^^ y) :: rest)) =
        some ((x ^^^ y) :: List.zipWith (· ^^^ ·) xs ys)
      rw [ih ys (by simpa using hb)]

lemma transformXor_none (a : List Byte) :
    ∀ b : List Byte, b.length < a.length → transformXor a b = none := by
  induction a with
  | nil => intro b hb; exact absurd hb (by simp)
  | cons x xs ih =>
    intro b hb
    cases b with
    | nil => rfl
    | cons y ys =>
      show (match transformXor xs ys with
        | none => none
        | some rest => some ((x ^^^ y) :: rest)) = none
      rw [ih ys (by simpa using hb)]

/-- One spec-side step matches one code-side generator call on related
states: same output byte, and the successor states are again related. -/
lemma specStep_matches (g : keystream_generator) (t : SpecGenState)
    (h : specRel g t) :
    (specStep t).1 = (generatorCall g).1 ∧
      specRel (generatorCall g).2 (specStep t).2 := by
  obtain ⟨hk, hc, ha⟩ := h
  have hh : specH t = callH g := by
    simp only [specH, callH, keysize] at *
    rw [hc, Nat.mod_add_mod]
  have hq : specQ t = callQ g := by
    simp only [specQ, callQ, keysize] at *
    rw [ha, hk, hh]
  have hkey : specKey t = callKey g := by
    simp only [specKey, callKey]
    rw [hk, hh, hq]
  have hw : specW t = callW g := by
    simp only [specW, callW, keysize] at *
    rw [hkey, hh, hq]
  refine ⟨?_, ?_, ?_, ?_⟩
  · show (specKey t).getD (specW t) 0 = (callKey g).getD (callW g) 0
    rw [hkey, hw]
  · show specKey t = callKey g
    exact hkey
  · show specH t = (g.m_i + 1) % keysize
    exact hh
  · show specQ t = callQ g
    exact hq

/-- Iterating `specStep_matches`: the spec-side stream equals the code-side
keystream and the states stay related. -/
lemma spec_run_matches (n : Nat) :
    ∀ (g : keystream_generator) (t : SpecGenState), specRel g t →
      specStream t n = keystreamN g n ∧ specRel (stepN g n) (specStepN t n) := by
  induction n with
  | zero => intro g t h; exact ⟨rfl, h⟩
  | succ n ih =>
    intro g t h
    obtain ⟨hout, hrel⟩ := specStep_matches g t h
    obtain ⟨hs, hr⟩ := ih (generatorCall g).2 (specStep t).2 hrel
    refine ⟨?_, hr⟩
    show (specStep t).1 :: specStream (specStep t).2 n =
      (generatorCall g).1 :: keystreamN (generatorCall g).2 n
    rw [hout, hs]

lemma stepN_m_i (n : Nat) :
    ∀ g : keystream_generator, (stepN g n).m_i = g.m_i + n := by
  induction n with
  | zero => intro g; rfl
  | succ n ih =>
    intro g
    show (stepN (generatorCall g).2 n).m_i = g.m_i + (n + 1)
    rw [ih]
    show (g.m_i + 1) + n = g.m_i + (n + 1)
    omega

lemma zipWith_xor_getD (a : List Byte) :
    ∀ (b : List Byte) (i : Nat), i < a.length → i < b.length →
      (List.zipWith (· ^^^ ·) a b).getD i 0 = a.getD i 0 ^^^ b.getD i 0 := by
  induction a with
  | nil => intro b i hi _; exact absurd hi (by simp)
  | cons x xs ih =>
    intro b i hi hb
    cases b with
    | nil => exact absurd hb (by simp)
    | cons y ys =>
      cases i with
      | zero => rfl
      | succ i =>
        show (List.zipWith (· ^^^ ·) xs ys).getD i 0 = xs.getD i 0 ^^^ ys.getD i 0
        exact ih ys i (by simpa using hi) (by simpa using hb)

/-- C1 (counterexample): with a first file of 9 bytes and a second file of
5 bytes, the xor mode does NOT produce an output of length `min 9 5 = 5`:
the `std::transform` loop only stops when the FIRST stream is exhausted,
and past the second stream's end it dereferences an end-of-stream
`istream_iterator` (undefined behavior, modelled as `none`).  So the claim
"output has length min(|A|,|B|) regardless of which stream is shorter" is
false at this input. -/
theorem xor_truncation_counterexample :
    ¬ ∃ out, xorMode (List.replicate 9 1) (List.replicate 5 1) = some out ∧
      out.length = min 9 5 := by
  rintro ⟨out, hout, -⟩
  rw [show xorMode (List.replicate 9 1) (List.replicate 5 1) = none from rfl]
    at hout
  exact Option.noConfusion hout

/-- C1 (amended): the xor mode's loop is governed by the first stream.
When the first file is at most as long as the second, the output is defined
and is the byte-wise XOR truncated to the first file's length (which is
then `min`), with `i`-th byte `A[i] XOR B[i]`; when the second file is
strictly shorter, the code reads the second stream past end-of-stream and
the run is undefined instead of truncating. -/
theorem xorMode_first_stream_governs (a b : List Byte) :
    (a.length ≤ b.length →
      xorMode a b = some (List.zipWith (· ^^^ ·) a b) ∧
        (List.zipWith (· ^^^ ·) a b).length = a.length ∧
        ∀ i : Nat, i < a.length →
          (List.zipWith (· ^^^ ·) a b).getD i 0 = a.getD i 0 ^^^ b.getD i 0) ∧
    (b.length < a.length → xorMode a b = none) := by
  constructor
  · intro hle
    refine ⟨transformXor_eq a b hle, ?_, ?_⟩
    · rw [List.length_zipWith]
      exact min_eq_left hle
    · intro i hi
      exact zipWith_xor_getD a b i hi (lt_of_lt_of_le hi hle)
  · intro hlt
    exact transformXor_none a b hlt

/-- C1 (witness for the amended theorem): a concrete in-bounds run,
`xor [1,2] [4,5,6] = [1 XOR 4, 2 XOR 5] = [5,7]`. -/
theorem xorMode_first_stream_governs_witness :
    ([1, 2] : List Byte).length ≤ ([4, 5, 6] : List Byte).length ∧
    xorMode [1, 2] [4, 5, 6] = some [5, 7] := by
  refine ⟨by decide, ?_⟩
  have h := ((xorMode_first_stream_governs [1, 2] [4, 5, 6]).1 (by decide)).1
  have h2 : some (List.zipWith (· ^^^ ·) ([1, 2] : List Byte) [4, 5, 6]) =
      some ([5, 7] : List Byte) := rfl
  exact h.trans h2

/-- C2: on a 256-byte key, every call of `keystream_generator::operator()`
produces exactly the output of the spec's five-step algorithm, started from
the same key: the emitted streams coincide for every length `n`, the code's
step counter after `n` calls is `n` (so the `n`-th call, counting from 1,
used `h = n mod 256`, visiting 1,2,...,255,0,1,...), and the working keys,
reduced step counters and accumulators stay in correspondence
(`specRel`). -/
theorem generator_matches_five_step_spec (key : List Byte) (n : Nat)
    (_hk : key.length = keysize) :
    specStream (specInit key) n = keystreamN ⟨key, 0, 0⟩ n ∧
    (stepN (⟨key, 0, 0⟩ : keystream_generator) n).m_i = n ∧
    specRel (stepN ⟨key, 0, 0⟩ n) (specStepN (specInit key) n) := by
  have h0 : specRel ⟨key, 0, 0⟩ (specInit key) := ⟨rfl, rfl, rfl⟩
  obtain ⟨hs, hr⟩ := spec_run_matches n ⟨key, 0, 0⟩ (specInit key) h0
  refine ⟨hs, ?_, hr⟩
  rw [stepN_m_i]
  show (0 : Nat) + n = n
  exact Nat.zero_add n

/-- C2 (witness): the correspondence instantiated on the identity key and
two generator steps. -/
theorem generator_matches_five_step_spec_witness :
    (List.range 256).length = keysize ∧
    (specStream (specInit (List.range 256)) 2 =
        keystreamN ⟨List.range 256, 0, 0⟩ 2 ∧
      (stepN (⟨List.range 256, 0, 0⟩ : keystream_generator) 2).m_i = 2 ∧
      specRel (stepN ⟨List.range 256, 0, 0⟩ 2)
        (specStepN (specInit (List.range 256)) 2)) :=
  ⟨rfl, generator_matches_five_step_spec (List.range 256) 2 rfl⟩

/-- C3 (counterexample): the argument "-1" is not a non-negative integer,
yet the keystream mode does not fail with InvalidArgument on it:
`std::stoul("-1")` succeeds and yields `2^64 - 1` (unsigned negation), so
the mode goes on to emit that many bytes. -/
theorem keystream_length_counterexample :
    isNonNegIntegerLiteral ['-', '1'] = false ∧
    keystreamMode (List.replicate 256 0) ['-', '1'] ≠
      Except.error CryptError.invalidArgument := by
  refine ⟨rfl, fun hcontra => ?_⟩
  have hok : (keystreamMode (List.replicate 256 0) ['-', '1']).isOk = true := rfl
  rw [hcontra] at hok
  exact Bool.noConfusion hok

/-- C3 (amended): given a valid 256-byte key, the keystream mode fails with
the error `std::stoul` raises when it raises one (`invalidArgument` when,
after optional whitespace and an optional sign, the argument has no decimal
digit; `outOfRange` when the digit value exceeds `ULONG_MAX`); a minus sign
alone does not make it fail (the value wraps modulo `2^64`).  When parsing
yields `n`, the mode emits exactly `n` bytes, namely the first `n` bytes
produced by a generator started from its initial state, with no input
stream involved. -/
theorem keystreamMode_spec (key : List Byte) (arg : List Char)
    (hk : key.length = keysize) :
    (∀ e, stoul arg = .error e → keystreamMode key arg = .error e) ∧
    (∀ n, stoul arg = .ok n →
      keystreamMode key arg = .ok (keystreamN ⟨key, 0, 0⟩ n) ∧
        (keystreamN ⟨key, 0, 0⟩ n).length = n) := by
  constructor
  · intro e he
    unfold keystreamMode
    rw [he]
  · intro n hn
    unfold keystreamMode
    rw [hn, mkGenerator_of_length hk]
    exact ⟨rfl, keystreamN_length n ⟨key, 0, 0⟩⟩

/-- C3 (witness for the amended theorem): the all-zero key with argument
"0" emits exactly 0 bytes. -/
theorem keystreamMode_spec_witness :
    (List.replicate 256 0 : List Byte).length = keysize ∧
    (keystreamMode (List.replicate 256 0) ['0'] =
        .ok (keystreamN ⟨List.replicate 256 0, 0, 0⟩ 0) ∧
      (keystreamN (⟨List.replicate 256 0, 0, 0⟩ : keystream_generator) 0).length
        = 0) :=
  ⟨rfl, (keystreamMode_spec (List.replicate 256 0) ['0'] rfl).2 0 rfl⟩

/-- C4: the crypt mode is self-inverse: if `crypt(data, key)` succeeds with
output `c`, then `crypt(c, key)` succeeds and reproduces `data` exactly —
both runs construct the generator from the same initial state, so they
consume identical keystreams and the byte-wise XOR cancels. -/
theorem crypt_self_inverse (key data c : List Byte)
    (h : cryptMode key data = .ok c) : cryptMode key c = .ok data := by
  obtain ⟨hl, hc⟩ := cryptMode_ok h
  have hclen : c.length = data.length := by
    rw [hc, List.length_zipWith, keystreamN_length, Nat.min_self]
  unfold cryptMode
  rw [mkGenerator_of_length hl]
  show Except.ok (cryptLoop c (mkIterator ⟨key, 0, 0⟩)) = Except.ok data
  rw [cryptLoop_eq_zipWith, hclen, hc,
    zipWith_xor_cancel data _ (keystreamN_length data.length ⟨key, 0, 0⟩).ge]

/-- C4 (witness): with the identity key, `crypt([7]) = [7 XOR 2] = [5]` and
`crypt([5]) = [7]` again. -/
theorem crypt_self_inverse_witness :
    cryptMode (List.range 256) [7] = .ok [5] ∧
    cryptMode (List.range 256) [5] = .ok [7] :=
  ⟨rfl, crypt_self_inverse (List.range 256) [7] [5] rfl⟩

/-- C5: after any number of `operator()` calls on a validly constructed
generator, the working key is a permutation of the original key — each call
only swaps two in-bounds positions, never inserting, deleting or changing a
value. -/
theorem working_key_is_permutation (key : List Byte)
    (g : keystream_generator) (n : Nat) (h : mkGenerator key = .ok g) :
    List.Perm (stepN g n).m_key key := by
  obtain ⟨hl, hg⟩ := mkGenerator_ok h
  subst hg
  exact stepN_key_perm n ⟨key, 0, 0⟩ hl

/-- C5 (witness): the invariant instantiated on the identity key after two
steps. -/
theorem working_key_is_permutation_witness :
    mkGenerator (List.range 256) = .ok ⟨List.range 256, 0, 0⟩ ∧
    List.Perm (stepN ⟨List.range 256, 0, 0⟩ 2).m_key (List.range 256) :=
  ⟨rfl, working_key_is_permutation (List.range 256) ⟨List.range 256, 0, 0⟩ 2 rfl⟩

/-- C6: constructing a generator fails with `invalidKeySize` exactly when
the key is not 256 bytes, and the 256-zero-byte key is accepted.  (That
construction is the only fallible generator operation is reflected in the
embedding by `generatorCall` being a total function into
`Byte × keystream_generator` rather than an `Except`.) -/
theorem mkGenerator_invalidKeySize :
    (∀ key : List Byte,
      mkGenerator key = .error .invalidKeySize ↔ key.length ≠ 256) ∧
    mkGenerator (List.replicate 256 0) = .ok ⟨List.replicate 256 0, 0, 0⟩ := by
  constructor
  · intro key
    unfold mkGenerator keysize
    split
    · next hl => simp [hl]
    · next hl => simp [hl]
  · rfl

/-- C7: every byte emitted by the keystream generator occurs somewhere in
the original key: the output is always looked up from inside the permuted
working key at an in-bounds index. -/
theorem alphabet_containment (key : List Byte) (g : keystream_generator)
    (n : Nat) (h : mkGenerator key = .ok g) :
    ∀ b ∈ keystreamN g n, b ∈ key := by
  obtain ⟨hl, hg⟩ := mkGenerator_ok h
  subst hg
  exact keystreamN_mem n ⟨key, 0, 0⟩ hl

/-- C7 (witness): the identity key's first emitted byte, 2, is a value of
the key. -/
theorem alphabet_containment_witness :
    mkGenerator (List.range 256) = .ok ⟨List.range 256, 0, 0⟩ ∧
    2 ∈ List.range 256 :=
  ⟨rfl, alphabet_containment (List.range 256) ⟨List.range 256, 0, 0⟩ 1 rfl 2
    (by decide)⟩

/-- C8: for the key `0,1,2,...,255`, a freshly constructed generator is
accepted and its first produced byte is 2 (h = 1, accumulator 1, self-swap
of key[1], w = 2, output key[2] = 2). -/
theorem identity_key_first_byte :
    mkGenerator (List.range 256) = .ok ⟨List.range 256, 0, 0⟩ ∧
    keystreamN ⟨List.range 256, 0, 0⟩ 1 = [2] :=
  ⟨rfl, rfl⟩

/-- C9: the keystream is a deterministic function of the key and the number
of calls: two generator instances freshly constructed from the same key
produce identical byte sequences for every length `N`. -/
theorem keystream_deterministic (key : List Byte) (n : Nat)
    (g1 g2 : keystream_generator)
    (h1 : mkGenerator key = .ok g1) (h2 : mkGenerator key = .ok g2) :
    keystreamN g1 n = keystreamN g2 n := by
  rw [h1] at h2
  injection h2 with h
  rw [h]

/-- C9 (witness): two instances on the all-zero key agree on 3 bytes. -/
theorem keystream_deterministic_witness :
    mkGenerator (List.replicate 256 0) = .ok ⟨List.replicate 256 0, 0, 0⟩ ∧
    keystreamN ⟨List.replicate 256 0, 0, 0⟩ 3 =
      keystreamN ⟨List.replicate 256 0, 0, 0⟩ 3 :=
  ⟨rfl, keystream_deterministic (List.replicate 256 0) 3
    ⟨List.replicate 256 0, 0, 0⟩ ⟨List.replicate 256 0, 0, 0⟩ rfl rfl⟩

/-- C10: cross-mode consistency: whenever the crypt mode succeeds on some
input and the keystream mode succeeds emitting as many bytes as that input
is long, the crypt output is exactly the byte-wise XOR of the input with
those keystream bytes — the lazy `keystream_iterator` (which pre-generates
its first byte at construction) consumes the same keystream bytes, in the
same order and from the same initial state, as `std::generate_n` does. -/
theorem crypt_consistent_with_keystream (key data out ks : List Byte)
    (lenArg : List Char)
    (h1 : cryptMode key data = .ok out)
    (h2 : keystreamMode key lenArg = .ok ks)
    (h3 : ks.length = data.length) :
    out = List.zipWith (· ^^^ ·) data ks := by
  obtain ⟨-, hout⟩ := cryptMode_ok h1
  obtain ⟨-, hks⟩ := keystreamMode_ok h2
  rw [hks, h3]
  exact hout

/-- C10 (witness): on the all-zero key, `crypt([5,6]) = [5,6]`, the
keystream mode with count "2" emits `[0,0]`, and the XOR identity holds. -/
theorem crypt_consistent_with_keystream_witness :
    cryptMode (List.replicate 256 0) [5, 6] = .ok [5, 6] ∧
    keystreamMode (List.replicate 256 0) ['2'] = .ok [0, 0] ∧
    ([0, 0] : List Byte).length = ([5, 6] : List Byte).length ∧
    [5, 6] = List.zipWith (· ^^^ ·) ([5, 6] : List Byte) [0, 0] :=
  ⟨rfl, rfl, rfl,
    crypt_consistent_with_keystream (List.replicate 256 0) [5, 6] [5, 6]
      [0, 0] ['2'] rfl rfl rfl⟩

end Terrible
